import Mathlib

/-!
Verification of the knowledge-spillover indicator (`indicators.py`, class `Giants`).

The Python source is shallowly embedded: a grid cell (a dict in the source) is a
`Cell` record, pandas dataframe pipelines become list operations, numpy floats
become real numbers, and a Python `dict` becomes an association list with
last-binding-wins lookup.  The instance attributes set in `Giants.setup` become
the `Params` record; `defaultParams` is the state right after `setup()`.
-/

namespace Minerva

/-- A grid cell, modelling one dict of `geogrid_data`.  `geometry` is the
(projected) centroid of the cell's geometry (`some` while the key is present,
`none` after `del cell['geometry']`); `extra` stands for all remaining
attributes (type metadata etc.) that the indicator never touches. -/
structure Cell where
  id : ℕ
  name : String
  height : ℝ
  color : List ℤ
  geometry : Option (ℝ × ℝ)
  extra : String

/-- One row of `self.dis`: columns `id_x`, `id_y`, `distance`. -/
structure DisRec where
  id_x : ℕ
  id_y : ℕ
  distance : ℝ

/-- The instance attributes assigned in `Giants.setup`. -/
structure Params where
  gamma : ℝ
  beta0 : ℝ
  beta1 : ℝ
  scale : ℝ
  background_alpha : ℝ
  units_alpha : ℝ
  base_height : ℝ
  academic_types : List String
  private_types : List String
  n_colors : ℕ

/-- The values assigned in `Giants.setup` (lines 24-39 of the source). -/
def defaultParams : Params :=
  { gamma := 0.004
  , beta0 := 0
  , beta1 := 0.06
  , scale := 2
  , background_alpha := 0.5
  , units_alpha := 0.9
  , base_height := 8
  , academic_types := ["Academic"]
  , private_types := ["Private R&D"]
  , n_colors := 3 }

/-- The `self.Reds` dict of `set_color_palette`; keys outside 3..9 raise
`KeyError` in Python, modelled as the empty palette. -/
def Reds (n : ℕ) : List (List ℤ) :=
  match n with
  | 3 => [[254,224,210], [252,146,114], [222,45,38]]
  | 4 => [[254,229,217], [252,174,145], [251,106,74], [203,24,29]]
  | 5 => [[254,229,217], [252,174,145], [251,106,74], [222,45,38], [165,15,21]]
  | 6 => [[254,229,217], [252,187,161], [252,146,114], [251,106,74], [222,45,38], [165,15,21]]
  | 7 => [[254,229,217], [252,187,161], [252,146,114], [251,106,74], [239,59,44], [203,24,29], [153,0,13]]
  | 8 => [[255,245,240], [254,224,210], [252,187,161], [252,146,114], [251,106,74], [239,59,44], [203,24,29], [153,0,13]]
  | 9 => [[255,245,240], [254,224,210], [252,187,161], [252,146,114], [251,106,74], [239,59,44], [203,24,29], [165,15,21], [103,0,13]]
  | _ => []

/-- `self.color_palette` after `set_color_palette`. -/
def color_palette (p : Params) : List (List ℤ) := Reds p.n_colors

/-- Euclidean planar distance between two projected centroids
(`x.distance(y)` on shapely points, line 84). -/
noncomputable def eucDist (a b : ℝ × ℝ) : ℝ :=
  Real.sqrt ((a.1 - b.1) ^ 2 + (a.2 - b.2) ^ 2)

/-- The `dis[['id','geometry']]` projection with centroids (lines 78-80):
id paired with the cell's centroid, for cells that carry a geometry. -/
def centroids (cells : List Cell) : List (ℕ × (ℝ × ℝ)) :=
  cells.filterMap (fun c => c.geometry.map (fun g => (c.id, g)))

/-- `make_dis_df` (lines 70-85): full cross join of the cells with themselves
(`pd.merge(dis,dis,on='flag')`), self-pairs removed (`id_x != id_y`), with the
pairwise centroid distance. -/
noncomputable def make_dis_df (cells : List Cell) : List DisRec :=
  ((centroids cells).flatMap (fun a => (centroids cells).map (fun b => (a, b)))).filterMap
    (fun ab => if ab.1.1 ≠ ab.2.1 then some ⟨ab.1.1, ab.2.1, eucDist ab.1.2 ab.2.2⟩ else none)

/-- Line 124: cells whose name is an academic or private type get their height
reset to `base_height`. -/
def resetHeights (p : Params) (cells : List Cell) : List Cell :=
  cells.map (fun c =>
    if c.name ∈ p.academic_types ∨ c.name ∈ p.private_types then
      { c with height := p.base_height }
    else c)

/-- Line 126: the `academic` dataframe (rows whose name is an academic type),
after the height reset. -/
def academicCells (p : Params) (cells : List Cell) : List Cell :=
  (resetHeights p cells).filter (fun c => decide (c.name ∈ p.academic_types))

/-- Line 127: the `private` dataframe (rows whose name is a private type),
after the height reset. -/
def privateCells (p : Params) (cells : List Cell) : List Cell :=
  (resetHeights p cells).filter (fun c => decide (c.name ∈ p.private_types))

/-- Lines 129-130: inner merge of `self.dis` with the private cells on `id_y`,
one row per (distance record, matching sender), carrying the decayed
contribution `exp(-gamma*distance) * patents` keyed by the receiving `id_x`. -/
noncomputable def exposureRows (p : Params) (dis : List DisRec) (priv : List Cell) :
    List (ℕ × ℝ) :=
  dis.flatMap (fun d =>
    (priv.filter (fun s => decide (s.id = d.id_y))).map
      (fun s => (d.id_x, Real.exp (-p.gamma * d.distance) * s.height)))

/-- Line 131: `groupby('id_x').sum E` — the summed exposure of receiver `i`. -/
def rawExposure (rows : List (ℕ × ℝ)) (i : ℕ) : ℝ :=
  ((rows.filter (fun r => decide (r.1 = i))).map Prod.snd).sum

/-- The ids present in the grouped exposure aggregate (the keys produced by
`groupby('id_x')`). -/
def exposureIds (rows : List (ℕ × ℝ)) : List ℕ :=
  (rows.map Prod.fst).dedup

/-- Line 132: `exp.loc[exp['exp']>50,'exp'] = 50` — the clamped exposure. -/
noncomputable def exposure (rows : List (ℕ × ℝ)) (i : ℕ) : ℝ :=
  if 50 < rawExposure rows i then 50 else rawExposure rows i

/-- `propagate_spillovers` (lines 115-137): receivers are inner-merged with the
exposure aggregate (receivers with no matching sender row are dropped), and the
final value is `height * exp(beta0 + beta1 * exposure)` with the post-reset
height. -/
noncomputable def propagate_spillovers (p : Params) (dis : List DisRec)
    (cells : List Cell) : List (ℕ × ℝ) :=
  let rows := exposureRows p dis (privateCells p cells)
  (academicCells p cells).filterMap (fun a =>
    if a.id ∈ exposureIds rows then
      some (a.id, a.height * Real.exp (p.beta0 + p.beta1 * exposure rows a.id))
    else none)

/-- Python `dict` lookup on an association list built left to right:
the last binding of a key wins. -/
def dictGet (l : List (ℕ × ℝ)) (i : ℕ) : Option ℝ :=
  (l.reverse.find? (fun pr => decide (pr.1 = i))).map Prod.snd

/-- Python `dict.values()`: one value per key, in first-insertion key order. -/
def dictValues (l : List (ℕ × ℝ)) : List ℝ :=
  ((l.map Prod.fst).dedup).filterMap (dictGet l)

/-- `np.linspace a b num`: `num` evenly spaced points from `a` to `b`,
step `(b - a) / (num - 1)`. -/
def linspace {α : Type} [LinearOrderedField α] (a b : α) (num : ℕ) : List α :=
  (List.range num).map (fun i : ℕ => a + (b - a) * (i : α) / ((num : α) - 1))

/-- `np.quantile values q` with the default linear interpolation: on the sorted
values `s` of length `m`, the index `h = q * (m - 1)` is split into its floor
and ceiling and the two surrounding order statistics are interpolated. -/
def quantile {α : Type} [LinearOrderedField α] [FloorRing α]
    (values : List α) (q : α) : α :=
  let s := values.insertionSort (fun a b => a ≤ b)
  let h := q * ((values.length : α) - 1)
  s.getD ⌊h⌋.toNat 0 + (h - ⌊h⌋) * (s.getD ⌈h⌉.toNat 0 - s.getD ⌊h⌋.toNat 0)

/-- `set_breaks` (lines 139-153).  The `jenkspy.jenks_breaks` call is an
external library, abstracted as the function argument `jenksFn`; a non-empty
value set with the `'quantile'` method yields the `n_colors + 1` quantiles at
`np.linspace 0 1 (n_colors + 1)`; any other method, or an empty value set,
yields `none` (`self.breaks = None`). -/
def set_breaks {α : Type} [LinearOrderedField α] [FloorRing α]
    (jenksFn : List α → ℕ → List α) (color_method : String) (n_colors : ℕ)
    (values : List α) : Option (List α) :=
  if 0 < values.length then
    if color_method = "jenks" then some (jenksFn values n_colors)
    else if color_method = "quantile" then
      some ((linspace 0 1 (n_colors + 1)).map (fun q => quantile values q))
    else none
  else none

/-- Python list indexing `l[i]`: negative indices count from the end;
out of range raises `IndexError`, modelled as `none`. -/
def pyGet {β : Type} (l : List β) (i : ℤ) : Option β :=
  if 0 ≤ i then l.get? i.toNat
  else if (-i).toNat ≤ l.length then l.get? (l.length - (-i).toNat) else none

/-- The bin index computed by `get_color` (line 160-161): the smallest index
`cat` with `breaks[cat] >= h` (`min(min(np.where(self.breaks>=h)))`), shifted
by `cat - 1`; `none` models the `ValueError` of `min` over an empty index
set (no break is `>= h`). -/
def bin_of {α : Type} [LinearOrder α] (breaks : List α) (h : α) : Option ℤ :=
  (breaks.findIdx? (fun b => decide (h ≤ b))).map (fun cat => (cat : ℤ) - 1)

/-- `get_color` (lines 155-164): with breaks present, index the palette at
`cat - 1` with Python indexing semantics; with `self.breaks is None`, return
the academic default color. -/
def get_color {α : Type} [LinearOrder α] (breaks : Option (List α))
    (palette : List (List ℤ)) (academic_color : List ℤ) (h : α) :
    Option (List ℤ) :=
  match breaks with
  | some bs =>
    match bs.findIdx? (fun b => decide (h ≤ b)) with
    | some cat => pyGet palette ((cat : ℤ) - 1)
    | none => none
  | none => some academic_color

/-- The distance cache resolution at the top of `return_indicator`
(lines 91-92): `if self.dis is None: self.make_dis_df(geogrid_data)`. -/
noncomputable def cachedDis (dis0 : Option (List DisRec)) (cells : List Cell) :
    List DisRec :=
  match dis0 with
  | none => make_dis_df cells
  | some d => d

/-- Lines 97-105 of the `for cell in geogrid_data` loop: cells with an entry
in `final_height_lookup` get the scaled, capped height and the break color;
otherwise `'Default'` cells get height 0 and the rest the scaled base height.
`none` models an exception escaping the loop body.  (Python `int()` of the
non-negative alpha float below is its floor.) -/
noncomputable def processCellHeight (p : Params) (lookup : List (ℕ × ℝ))
    (breaks : Option (List ℝ)) (academic_color : List ℤ) (cell : Cell) :
    Option Cell :=
  if cell.id ∈ lookup.map Prod.fst then
    match dictGet lookup cell.id with
    | some h =>
      match get_color breaks (color_palette p) academic_color h with
      | some col => some { cell with height := p.scale * min 1000 h, color := col }
      | none => none
    | none => none
  else if cell.name = "Default" then some { cell with height := 0 }
  else some { cell with height := p.scale * p.base_height }

/-- Lines 107-112: append the alpha channel and delete the geometry key. -/
noncomputable def processCellFinish (p : Params) (cell1 : Cell) : Cell :=
  let cell2 : Cell :=
    if cell1.name = "Default" then
      { cell1 with color := cell1.color.take 3 ++ [⌊p.background_alpha * 255⌋] }
    else
      { cell1 with color := cell1.color.take 3 ++ [⌊p.units_alpha * 255⌋] }
  { cell2 with geometry := none }

/-- One full iteration of the loop body (lines 97-112). -/
noncomputable def processCell (p : Params) (lookup : List (ℕ × ℝ))
    (breaks : Option (List ℝ)) (academic_color : List ℤ) (cell : Cell) :
    Option Cell :=
  (processCellHeight p lookup breaks academic_color cell).map (processCellFinish p)

/-- The loop over all cells; an exception in any cell aborts the pass. -/
def processCells {β : Type} (f : β → Option β) : List β → Option (List β)
  | [] => some []
  | c :: cs =>
    match f c, processCells f cs with
    | some c', some cs' => some (c' :: cs')
    | _, _ => none

/-- `return_indicator` (lines 87-113) as a state transition: the first
component is the distance cache after the call (`self.dis`), the second the
updated `geogrid_data`.  The academic default color (`set_academic_color`,
read from the external GEOGRID properties) and the external
`jenkspy.jenks_breaks` are arguments. -/
noncomputable def return_indicator (p : Params) (color_method : String)
    (jenksFn : List ℝ → ℕ → List ℝ) (academic_color : List ℤ)
    (dis0 : Option (List DisRec)) (cells : List Cell) :
    Option (List DisRec) × Option (List Cell) :=
  let dis := cachedDis dis0 cells
  let lookup := propagate_spillovers p dis cells
  let breaks := set_breaks jenksFn color_method p.n_colors (dictValues lookup)
  (some dis, processCells (processCell p lookup breaks academic_color) cells)

/-- The distance cache (`self.dis`) after a sequence of `return_indicator`
calls on the given grids, starting from the fresh state `self.dis = None`. -/
noncomputable def disStateAfter (p : Params) (color_method : String)
    (jenksFn : List ℝ → ℕ → List ℝ) (academic_color : List ℤ)
    (calls : List (List Cell)) : Option (List DisRec) :=
  calls.foldl
    (fun st cells => (return_indicator p color_method jenksFn academic_color st cells).1)
    none

/-! Concrete inputs used by the witnesses and counterexamples. -/

/-- An academic cell at the origin (its externally supplied height 30 must be
reset to the base height by the engine). -/
def cA : Cell := ⟨1, "Academic", 30, [10, 20, 30], some (0, 0), "metaA"⟩

/-- A private R&D cell at (3,4), i.e. at distance 5 from `cA`. -/
def cP : Cell := ⟨2, "Private R&D", 7, [1, 2, 3], some (3, 4), "metaP"⟩

/-- A small grid with one receiver and one sender. -/
def exCells : List Cell := [cA, cP]

/-- The exposure rows of the example grid. -/
noncomputable def exRows : List (ℕ × ℝ) :=
  exposureRows defaultParams (make_dis_df exCells) (privateCells defaultParams exCells)

/-- A placeholder for the external `jenkspy.jenks_breaks` in runs that never
reach the jenks branch. -/
def jenksUnused : List ℝ → ℕ → List ℝ := fun _ _ => []

/-- Its rational counterpart for the classifier claims. -/
def jenksUnusedQ : List ℚ → ℕ → List ℚ := fun _ _ => []

/-- The value the engine produces for `cA` on the example grid. -/
noncomputable def exVal : ℝ := 8 * Real.exp (0 + 0.06 * exposure exRows 1)

/-- The rendered `cA` after `return_indicator` with the `'none'` color method:
scaled capped height, academic default color with the units alpha, geometry
removed, everything else untouched. -/
noncomputable def cAout : Cell :=
  ⟨1, "Academic", 2 * min 1000 exVal, [0, 0, 0, ⌊(0.9:ℝ) * 255⌋], none, "metaA"⟩

/-- The rendered `cP`: not a receiver, so it falls back to the scaled base
height and keeps its own color (plus alpha). -/
noncomputable def cPout : Cell :=
  ⟨2, "Private R&D", 2 * 8, [1, 2, 3, ⌊(0.9:ℝ) * 255⌋], none, "metaP"⟩

/-- Two-cell grid used for the cache-invalidation counterexample. -/
def grid1 : List Cell :=
  [⟨1, "Academic", 5, [0, 0, 0], some (0, 0), "m1"⟩,
   ⟨2, "Academic", 5, [0, 0, 0], some (1, 0), "m2"⟩]

/-- The same two cells after the second one moved to (2,0): same ids, changed
geometry. -/
def grid2 : List Cell :=
  [⟨1, "Academic", 5, [0, 0, 0], some (0, 0), "m1"⟩,
   ⟨2, "Academic", 5, [0, 0, 0], some (2, 0), "m2"⟩]

/-! Helper lemmas about the engine. -/

lemma academicCells_height {p : Params} {cells : List Cell} {a : Cell}
    (ha : a ∈ academicCells p cells) :
    a.height = p.base_height ∧ a.name ∈ p.academic_types := by
  rw [academicCells, List.mem_filter] at ha
  obtain ⟨hmem, hdec⟩ := ha
  have hname : a.name ∈ p.academic_types := by simpa using hdec
  refine ⟨?_, hname⟩
  rw [resetHeights, List.mem_map] at hmem
  obtain ⟨c, _, hc⟩ := hmem
  by_cases h : c.name ∈ p.academic_types ∨ c.name ∈ p.private_types
  · rw [if_pos h] at hc
    rw [← hc]
  · rw [if_neg h] at hc
    subst hc
    exact absurd (Or.inl hname) h

lemma privateCells_height {p : Params} {cells : List Cell} {s : Cell}
    (hs : s ∈ privateCells p cells) :
    s.height = p.base_height ∧ s.name ∈ p.private_types := by
  rw [privateCells, List.mem_filter] at hs
  obtain ⟨hmem, hdec⟩ := hs
  have hname : s.name ∈ p.private_types := by simpa using hdec
  refine ⟨?_, hname⟩
  rw [resetHeights, List.mem_map] at hmem
  obtain ⟨c, _, hc⟩ := hmem
  by_cases h : c.name ∈ p.academic_types ∨ c.name ∈ p.private_types
  · rw [if_pos h] at hc
    rw [← hc]
  · rw [if_neg h] at hc
    subst hc
    exact absurd (Or.inr hname) h

lemma exposureRows_nonneg {p : Params} {dis : List DisRec} {cells : List Cell}
    (hb : 0 ≤ p.base_height) :
    ∀ r ∈ exposureRows p dis (privateCells p cells), 0 ≤ r.2 := by
  intro r hr
  rw [exposureRows, List.mem_flatMap] at hr
  obtain ⟨d, _, hr⟩ := hr
  rw [List.mem_map] at hr
  obtain ⟨s, hs, hrs⟩ := hr
  have hsp : s ∈ privateCells p cells := List.mem_of_mem_filter hs
  have hh := (privateCells_height hsp).1
  rw [← hrs]
  have hexp := (Real.exp_pos (-p.gamma * d.distance)).le
  exact mul_nonneg hexp (hh ▸ hb)

lemma rawExposure_nonneg {rows : List (ℕ × ℝ)} {i : ℕ}
    (h : ∀ r ∈ rows, 0 ≤ r.2) : 0 ≤ rawExposure rows i := by
  refine List.sum_nonneg ?_
  intro x hx
  rw [List.mem_map] at hx
  obtain ⟨r, hr, rfl⟩ := hx
  exact h r (List.mem_of_mem_filter hr)

lemma exposure_le_fifty (rows : List (ℕ × ℝ)) (i : ℕ) : exposure rows i ≤ 50 := by
  rw [exposure]
  split_ifs with h
  · exact le_refl 50
  · exact le_of_not_lt h

lemma exposure_nonneg {rows : List (ℕ × ℝ)} {i : ℕ}
    (h : ∀ r ∈ rows, 0 ≤ r.2) : 0 ≤ exposure rows i := by
  rw [exposure]
  split_ifs with hc
  · norm_num
  · exact rawExposure_nonneg h

lemma mem_propagate {p : Params} {dis : List DisRec} {cells : List Cell}
    {pr : ℕ × ℝ} (hpr : pr ∈ propagate_spillovers p dis cells) :
    ∃ a ∈ academicCells p cells,
      a.id ∈ exposureIds (exposureRows p dis (privateCells p cells)) ∧
      pr = (a.id, a.height * Real.exp (p.beta0 + p.beta1 *
        exposure (exposureRows p dis (privateCells p cells)) a.id)) := by
  simp only [propagate_spillovers, List.mem_filterMap] at hpr
  obtain ⟨a, ha, haif⟩ := hpr
  by_cases h : a.id ∈ exposureIds (exposureRows p dis (privateCells p cells))
  · rw [if_pos h] at haif
    exact ⟨a, ha, h, (Option.some.inj haif).symm⟩
  · rw [if_neg h] at haif
    exact absurd haif (by simp)

lemma propagate_no_private {p : Params} {dis : List DisRec} {cells : List Cell}
    (hpriv : privateCells p cells = []) :
    propagate_spillovers p dis cells = [] := by
  have hrows : exposureRows p dis (privateCells p cells) = [] := by
    rw [hpriv, exposureRows]
    simp
  rw [propagate_spillovers, hrows]
  rw [List.filterMap_eq_nil_iff]
  intro a _
  rw [if_neg]
  simp [exposureIds]

lemma propagate_no_academic {p : Params} {dis : List DisRec} {cells : List Cell}
    (hacad : academicCells p cells = []) :
    propagate_spillovers p dis cells = [] := by
  rw [propagate_spillovers, hacad]
  simp

/-! Helper lemmas about the rendering pass. -/

lemma processCells_forall₂ {β : Type} {f : β → Option β} :
    ∀ {l out : List β}, processCells f l = some out →
      List.Forall₂ (fun c c' => f c = some c') l out := by
  intro l
  induction l with
  | nil =>
    intro out h
    simp only [processCells] at h
    rw [← Option.some.inj h]
    exact List.Forall₂.nil
  | cons c cs ih =>
    intro out h
    simp only [processCells] at h
    cases hfc : f c with
    | none => rw [hfc] at h; simp at h
    | some c' =>
      cases hcs : processCells f cs with
      | none => rw [hfc, hcs] at h; simp at h
      | some cs' =>
        rw [hfc, hcs] at h
        rw [← Option.some.inj h]
        exact List.Forall₂.cons hfc (ih hcs)

lemma processCells_mem {β : Type} {f : β → Option β} :
    ∀ {l out : List β}, processCells f l = some out → ∀ c' ∈ out,
      ∃ c ∈ l, f c = some c' := by
  intro l
  induction l with
  | nil =>
    intro out h c' hc'
    simp only [processCells] at h
    rw [← Option.some.inj h] at hc'
    exact absurd hc' (List.not_mem_nil c')
  | cons c cs ih =>
    intro out h c' hc'
    simp only [processCells] at h
    cases hfc : f c with
    | none => rw [hfc] at h; simp at h
    | some c0 =>
      cases hcs : processCells f cs with
      | none => rw [hfc, hcs] at h; simp at h
      | some cs' =>
        rw [hfc, hcs] at h
        rw [← Option.some.inj h] at hc'
        rcases List.mem_cons.mp hc' with hc' | hc'
        · exact ⟨c, List.mem_cons_self c cs, hc' ▸ hfc⟩
        · obtain ⟨d, hd, hfd⟩ := ih hcs c' hc'
          exact ⟨d, List.mem_cons_of_mem c hd, hfd⟩

lemma processCellFinish_fields (p : Params) (cell1 : Cell) :
    (processCellFinish p cell1).id = cell1.id ∧
    (processCellFinish p cell1).name = cell1.name ∧
    (processCellFinish p cell1).extra = cell1.extra ∧
    (processCellFinish p cell1).height = cell1.height ∧
    (processCellFinish p cell1).geometry = none := by
  rw [processCellFinish]
  split_ifs <;> exact ⟨rfl, rfl, rfl, rfl, rfl⟩

lemma processCellHeight_fields {p : Params} {lookup : List (ℕ × ℝ)}
    {breaks : Option (List ℝ)} {ac : List ℤ} {cell cell1 : Cell}
    (h : processCellHeight p lookup breaks ac cell = some cell1) :
    cell1.id = cell.id ∧ cell1.name = cell.name ∧ cell1.extra = cell.extra ∧
    cell1.geometry = cell.geometry := by
  rw [processCellHeight] at h
  split_ifs at h with h1 h2
  · cases hget : dictGet lookup cell.id with
    | none =>
      simp only [hget] at h
      exact Option.noConfusion h
    | some hv =>
      simp only [hget] at h
      cases hcol : get_color breaks (color_palette p) ac hv with
      | none =>
        simp only [hcol] at h
        exact Option.noConfusion h
      | some col =>
        simp only [hcol] at h
        rw [← Option.some.inj h]
        exact ⟨rfl, rfl, rfl, rfl⟩
  · rw [← Option.some.inj h]
    exact ⟨rfl, rfl, rfl, rfl⟩
  · rw [← Option.some.inj h]
    exact ⟨rfl, rfl, rfl, rfl⟩

lemma processCellHeight_of_mem {p : Params} {lookup : List (ℕ × ℝ)}
    {breaks : Option (List ℝ)} {ac : List ℤ} {cell cell1 : Cell}
    (h : processCellHeight p lookup breaks ac cell = some cell1)
    (hid : cell.id ∈ lookup.map Prod.fst) :
    ∃ hv, dictGet lookup cell.id = some hv ∧
      cell1.height = p.scale * min 1000 hv := by
  rw [processCellHeight, if_pos hid] at h
  cases hget : dictGet lookup cell.id with
  | none =>
    simp only [hget] at h
    exact Option.noConfusion h
  | some hv =>
    simp only [hget] at h
    cases hcol : get_color breaks (color_palette p) ac hv with
    | none =>
      simp only [hcol] at h
      exact Option.noConfusion h
    | some col =>
      simp only [hcol] at h
      exact ⟨hv, rfl, by rw [← Option.some.inj h]⟩

lemma dictGet_mem {l : List (ℕ × ℝ)} {i : ℕ} {v : ℝ}
    (h : dictGet l i = some v) : (i, v) ∈ l := by
  rw [dictGet] at h
  rw [Option.map_eq_some'] at h
  obtain ⟨pr, hfind, hsnd⟩ := h
  have hpred := List.find?_some hfind
  have hmem := List.mem_of_find?_eq_some hfind
  rw [List.mem_reverse] at hmem
  have hfst : pr.1 = i := by simpa using hpred
  have : pr = (i, v) := by
    cases pr
    simp_all
  rw [← this]
  exact hmem

/-! Helper lemmas about the classifier. -/

lemma quantile_eval {α : Type} [LinearOrderedField α] [FloorRing α]
    (values : List α) (q x y : α) (lo hi : ℤ)
    (h1 : ⌊q * ((values.length : α) - 1)⌋ = lo)
    (h2 : ⌈q * ((values.length : α) - 1)⌉ = hi)
    (hx : (values.insertionSort (fun a b => a ≤ b)).getD lo.toNat 0 = x)
    (hy : (values.insertionSort (fun a b => a ≤ b)).getD hi.toNat 0 = y) :
    quantile values q = x + (q * ((values.length : α) - 1) - lo) * (y - x) := by
  simp only [quantile, h1, h2, hx, hy]

lemma linspace_unit {α : Type} [LinearOrderedField α] (n : ℕ) :
    linspace (0:α) 1 (n+1) = (List.range (n+1)).map (fun i : ℕ => (i:α)/(n:α)) := by
  rw [linspace]
  have h : (fun i : ℕ => (0:α) + (1 - 0) * (i : α) / (((n+1 : ℕ) : α) - 1)) =
      fun i : ℕ => (i:α)/(n:α) := by
    funext i
    push_cast
    ring
  rw [h]

lemma quantile9_q0 : quantile ([1,2,3,4,5,6,7,8,9] : List ℚ) 0 = 1 := by
  rw [quantile_eval ([1,2,3,4,5,6,7,8,9] : List ℚ) 0 1 1 0 0
    (by norm_num) (by norm_num) (by decide) (by decide)]
  norm_num

lemma quantile9_q13 : quantile ([1,2,3,4,5,6,7,8,9] : List ℚ) (1/3) = 11/3 := by
  rw [quantile_eval ([1,2,3,4,5,6,7,8,9] : List ℚ) (1/3) 3 4 2 3
    (by norm_num)
    (by norm_num; rw [Int.ceil_eq_iff] ; norm_num)
    (by decide) (by decide)]
  norm_num

lemma quantile9_q23 : quantile ([1,2,3,4,5,6,7,8,9] : List ℚ) (2/3) = 19/3 := by
  rw [quantile_eval ([1,2,3,4,5,6,7,8,9] : List ℚ) (2/3) 6 7 5 6
    (by norm_num)
    (by norm_num; rw [Int.ceil_eq_iff] ; norm_num)
    (by decide) (by decide)]
  norm_num

lemma quantile9_q1 : quantile ([1,2,3,4,5,6,7,8,9] : List ℚ) 1 = 9 := by
  rw [quantile_eval ([1,2,3,4,5,6,7,8,9] : List ℚ) 1 9 9 8 8
    (by norm_num) (by norm_num) (by decide) (by decide)]
  norm_num

lemma quantile_breaks_general (jfn : List ℚ → ℕ → List ℚ) (n : ℕ)
    (values : List ℚ) (hne : values ≠ []) :
    set_breaks jfn "quantile" n values =
      some ((List.range (n+1)).map (fun i : ℕ => quantile values ((i:ℚ)/(n:ℚ)))) := by
  rw [set_breaks, if_pos (List.length_pos.mpr hne), if_neg (by decide), if_pos rfl]
  rw [linspace_unit, List.map_map]
  rfl

lemma breaks9 (jfn : List ℚ → ℕ → List ℚ) :
    set_breaks jfn "quantile" 3 [1,2,3,4,5,6,7,8,9] =
      some [1, 11/3, 19/3, 9] := by
  rw [quantile_breaks_general jfn 3 _ (by decide)]
  norm_num [List.range_succ]
  exact ⟨quantile9_q0, quantile9_q13, quantile9_q23, quantile9_q1⟩

/-! Helper facts about the concrete example inputs, and numeric bounds. -/

lemma propagate_exCells :
    propagate_spillovers defaultParams (make_dis_df exCells) exCells = [(1, exVal)] := by
  simp [propagate_spillovers, academicCells, privateCells, resetHeights, exCells, cA, cP,
    make_dis_df, centroids, exposureRows, exposureIds, exRows, exVal, defaultParams]

lemma ret_exCells :
    (return_indicator defaultParams "none" jenksUnused [0,0,0] none exCells).2 =
      some [cAout, cPout] := by
  simp [return_indicator, cachedDis, processCells, processCell, processCellHeight,
    processCellFinish, propagate_spillovers, academicCells, privateCells, resetHeights,
    exCells, cA, cP, make_dis_df, centroids, exposureRows, exposureIds, exRows, exVal,
    defaultParams, dictGet, dictValues, set_breaks, get_color, color_palette, Reds,
    cAout, cPout, List.find?, jenksUnused]

lemma exp_three_lt : Real.exp 3 < 62.5 := by
  have h1 := Real.exp_one_lt_d9
  have h3 : Real.exp 3 = Real.exp 1 ^ 3 := by
    rw [show (3:ℝ) = ((3:ℕ) : ℝ) * (1:ℝ) from by norm_num, Real.exp_nat_mul]
  calc Real.exp 3 = Real.exp 1 ^ 3 := h3
    _ < 2.7182818286 ^ 3 := by
        apply pow_lt_pow_left₀ h1 (Real.exp_pos 1).le
        norm_num
    _ < 62.5 := by norm_num

lemma return_indicator_fst (p : Params) (cm : String) (jfn : List ℝ → ℕ → List ℝ)
    (ac : List ℤ) (dis0 : Option (List DisRec)) (cells : List Cell) :
    (return_indicator p cm jfn ac dis0 cells).1 = some (cachedDis dis0 cells) := rfl

lemma make_dis_df_grid1 :
    make_dis_df grid1 =
      [⟨1, 2, eucDist (0, 0) (1, 0)⟩, ⟨2, 1, eucDist (1, 0) (0, 0)⟩] := by
  simp [make_dis_df, centroids, grid1]

lemma make_dis_df_grid2 :
    make_dis_df grid2 =
      [⟨1, 2, eucDist (0, 0) (2, 0)⟩, ⟨2, 1, eucDist (2, 0) (0, 0)⟩] := by
  simp [make_dis_df, centroids, grid2]

lemma eucDist_one : eucDist (0, 0) (1, 0) = 1 := by
  rw [eucDist]
  norm_num

lemma eucDist_two : eucDist (0, 0) (2, 0) = 2 := by
  rw [eucDist]
  norm_num
  rw [show (4:ℝ) = 2 ^ 2 from by norm_num, Real.sqrt_sq (by norm_num : (0:ℝ) ≤ 2)]

lemma grids_differ : make_dis_df grid1 ≠ make_dis_df grid2 := by
  intro h
  rw [make_dis_df_grid1, make_dis_df_grid2] at h
  have hd : eucDist (0, 0) (1, 0) = eucDist (0, 0) (2, 0) := by
    have := List.head_eq_of_cons_eq h
    simpa [DisRec.mk.injEq] using this
  rw [eucDist_one, eucDist_two] at hd
  norm_num at hd

lemma mem_centroids {cells : List Cell} {a : Cell} {pa : ℝ × ℝ}
    (ha : a ∈ cells) (hpa : a.geometry = some pa) :
    (a.id, pa) ∈ centroids cells := by
  rw [centroids, List.mem_filterMap]
  exact ⟨a, ha, by rw [hpa]; rfl⟩

lemma mem_make_dis_df {cells : List Cell} {i j : ℕ} {pa pb : ℝ × ℝ}
    (hi : (i, pa) ∈ centroids cells) (hj : (j, pb) ∈ centroids cells)
    (hij : i ≠ j) :
    (⟨i, j, eucDist pa pb⟩ : DisRec) ∈ make_dis_df cells := by
  rw [make_dis_df, List.mem_filterMap]
  refine ⟨((i, pa), (j, pb)), ?_, ?_⟩
  · rw [List.mem_flatMap]
    exact ⟨(i, pa), hi, List.mem_map.mpr ⟨(j, pb), hj, rfl⟩⟩
  · simp [hij]

lemma eucDist_symm (pa pb : ℝ × ℝ) : eucDist pa pb = eucDist pb pa := by
  have h : (pa.1 - pb.1) ^ 2 + (pa.2 - pb.2) ^ 2 =
      (pb.1 - pa.1) ^ 2 + (pb.2 - pa.2) ^ 2 := by ring
  rw [eucDist, eucDist, h]

lemma make_dis_df_no_self {cells : List Cell} :
    ∀ r ∈ make_dis_df cells, r.id_x ≠ r.id_y := by
  intro r hr
  rw [make_dis_df, List.mem_filterMap] at hr
  obtain ⟨ab, _, hab⟩ := hr
  by_cases h : ab.1.1 ≠ ab.2.1
  · rw [if_pos h] at hab
    rw [← Option.some.inj hab]
    exact h
  · rw [if_neg h] at hab
    exact absurd hab (by simp)

lemma make_dis_df_small {cells : List Cell} (h2 : cells.length < 2) :
    make_dis_df cells = [] := by
  have hlen : (centroids cells).length ≤ cells.length :=
    List.length_filterMap_le _ _
  cases hc : centroids cells with
  | nil => simp [make_dis_df, hc]
  | cons x t =>
    cases t with
    | nil => simp [make_dis_df, hc]
    | cons y t2 =>
      rw [hc] at hlen
      simp at hlen
      omega

/-! The claims. -/

/-- C1: the claim says every value of a non-empty collection gets a bin index
in `[0, n_bins - 1]` and that a value equal to the lowest break resolves to
bin 0.  The code violates this: with the quantile breaks of `[1..9]`
(3 bins), the value 1 — equal to the lowest break — gets
`cat = min(np.where(breaks >= 1)) = 0` and bin `cat - 1 = -1`, and the Python
palette lookup at `-1` silently wraps to the *last* (deepest) color instead of
the first. -/
theorem C1_lowest_break_wraps_to_last_bin :
    (∀ jfn : List ℚ → ℕ → List ℚ,
      set_breaks jfn "quantile" 3 [1,2,3,4,5,6,7,8,9] = some [1, 11/3, 19/3, 9]) ∧
    bin_of [(1:ℚ), 11/3, 19/3, 9] 1 = some (-1) ∧
    get_color (some [(1:ℚ), 11/3, 19/3, 9]) (Reds 3) [0,0,0] 1 =
      some [222,45,38] ∧
    (Reds 3).getLast? = some [222,45,38] := by
  refine ⟨breaks9, ?_, ?_, ?_⟩
  · norm_num [bin_of, List.findIdx?_cons]
  · norm_num [get_color, List.findIdx?_cons, pyGet, Reds]
  · rfl

/-- C2 as stated is false on the code: on a grid with one academic (receiver)
cell and zero private (sender) cells, `propagate_spillovers` does not produce
the value `base_height * exp(beta0)` for the receiver — the inner merge with
the empty exposure aggregate drops every receiver, so no value at all is
produced for it. -/
theorem C2_counterexample :
    ¬ (∀ a ∈ academicCells defaultParams [cA], ∃ v,
        dictGet (propagate_spillovers defaultParams (make_dis_df [cA]) [cA])
          a.id = some v) := by
  intro hcl
  have hA : ({ cA with height := (8:ℝ) } : Cell) ∈ academicCells defaultParams [cA] := by
    simp [academicCells, resetHeights, cA, defaultParams]
  obtain ⟨v, hv⟩ := hcl _ hA
  rw [propagate_no_private
    (by simp [privateCells, resetHeights, cA, defaultParams])] at hv
  simp [dictGet] at hv

/-- C2 amended: with receiver cells but zero sender cells, every receiver's
raw exposure aggregate is 0 and the output mapping of `propagate_spillovers`
is empty — no receiver is assigned `base_height * exp(beta0)`; callers see the
fallback height instead. -/
theorem C2_amended_zero_senders (p : Params) (dis : List DisRec)
    (cells : List Cell) (hpriv : privateCells p cells = []) :
    (∀ i, rawExposure (exposureRows p dis (privateCells p cells)) i = 0) ∧
    propagate_spillovers p dis cells = [] := by
  constructor
  · intro i
    rw [hpriv]
    have hfm : (dis.flatMap fun _ : DisRec => ([] : List (ℕ × ℝ))) = [] := by simp
    simp [exposureRows, rawExposure, hfm]
  · exact propagate_no_private hpriv

/-- Witness for C2 at a concrete input: one academic cell, no senders. -/
theorem C2_witness :
    rawExposure (exposureRows defaultParams (make_dis_df [cA])
      (privateCells defaultParams [cA])) 1 = 0 ∧
    propagate_spillovers defaultParams (make_dis_df [cA]) [cA] = [] := by
  have h := C2_amended_zero_senders defaultParams (make_dis_df [cA]) [cA]
    (by simp [privateCells, resetHeights, cA, defaultParams])
  exact ⟨h.1 1, h.2⟩

/-- C3: with no sender cells at all, or with no receiver cells,
`propagate_spillovers` returns the empty output mapping; the embedding is a
total function, so the degenerate inputs yield an empty result rather than a
failure. -/
theorem C3_degenerate_inputs_empty (p : Params) (dis : List DisRec)
    (cells : List Cell) :
    (privateCells p cells = [] → propagate_spillovers p dis cells = []) ∧
    (academicCells p cells = [] → propagate_spillovers p dis cells = []) :=
  ⟨propagate_no_private, propagate_no_academic⟩

/-- Witness for C3: a sender-free grid and a receiver-free grid. -/
theorem C3_witness :
    propagate_spillovers defaultParams (make_dis_df [cA]) [cA] = [] ∧
    propagate_spillovers defaultParams (make_dis_df [cP]) [cP] = [] := by
  constructor
  · exact (C3_degenerate_inputs_empty defaultParams (make_dis_df [cA]) [cA]).1
      (by simp [privateCells, resetHeights, cA, defaultParams])
  · exact (C3_degenerate_inputs_empty defaultParams (make_dis_df [cP]) [cP]).2
      (by simp [academicCells, resetHeights, cP, defaultParams])

/-- C4: every entry of the returned mapping has value
`base_height * exp(beta0 + beta1 * exposure)` for its clamped exposure (the
receiver's height having been reset to `base_height`); the value is positive
and at least `base_height * exp(beta0)`, and the output transform is strictly
increasing in the exposure. -/
theorem C4_output_formula (p : Params) (dis : List DisRec) (cells : List Cell)
    (hb : 0 < p.base_height) (h1 : 0 < p.beta1) (pr : ℕ × ℝ)
    (hpr : pr ∈ propagate_spillovers p dis cells) :
    pr.2 = p.base_height * Real.exp (p.beta0 + p.beta1 *
        exposure (exposureRows p dis (privateCells p cells)) pr.1) ∧
    0 < pr.2 ∧
    p.base_height * Real.exp p.beta0 ≤ pr.2 ∧
    (∀ e1 e2 : ℝ, e1 < e2 →
      p.base_height * Real.exp (p.beta0 + p.beta1 * e1) <
        p.base_height * Real.exp (p.beta0 + p.beta1 * e2)) := by
  obtain ⟨a, ha, hid, hpr_eq⟩ := mem_propagate hpr
  have hah := (academicCells_height ha).1
  have hrows : ∀ r ∈ exposureRows p dis (privateCells p cells), 0 ≤ r.2 :=
    exposureRows_nonneg hb.le
  have he0 : 0 ≤ exposure (exposureRows p dis (privateCells p cells)) a.id :=
    exposure_nonneg hrows
  subst hpr_eq
  refine ⟨by rw [hah], ?_, ?_, ?_⟩
  · rw [hah]
    positivity
  · rw [hah]
    have hexp : Real.exp p.beta0 ≤
        Real.exp (p.beta0 + p.beta1 *
          exposure (exposureRows p dis (privateCells p cells)) a.id) := by
      apply Real.exp_le_exp.mpr
      nlinarith [mul_nonneg h1.le he0]
    exact mul_le_mul_of_nonneg_left hexp hb.le
  · intro e1 e2 he
    apply mul_lt_mul_of_pos_left _ hb
    apply Real.exp_lt_exp.mpr
    nlinarith

/-- Witness for C4 at the one-sender-one-receiver grid. -/
theorem C4_witness :
    exVal = defaultParams.base_height * Real.exp (defaultParams.beta0 +
      defaultParams.beta1 * exposure (exposureRows defaultParams
        (make_dis_df exCells) (privateCells defaultParams exCells)) 1) ∧
    0 < exVal ∧
    defaultParams.base_height * Real.exp defaultParams.beta0 ≤ exVal ∧
    defaultParams.base_height * Real.exp (defaultParams.beta0 +
        defaultParams.beta1 * 0) <
      defaultParams.base_height * Real.exp (defaultParams.beta0 +
        defaultParams.beta1 * 1) := by
  have h := C4_output_formula defaultParams (make_dis_df exCells) exCells
    (by norm_num [defaultParams]) (by norm_num [defaultParams]) (1, exVal)
    (by rw [propagate_exCells]; exact List.mem_singleton.mpr rfl)
  exact ⟨h.1, h.2.1, h.2.2.1, h.2.2.2 0 1 (by norm_num)⟩

/-- C5: the exposure fed into the output transform is the raw aggregate
clamped at the ceiling 50, so for every entry of the output mapping the
exposure used is at most 50. -/
theorem C5_exposure_clamped (p : Params) (dis : List DisRec)
    (cells : List Cell) (pr : ℕ × ℝ)
    (hpr : pr ∈ propagate_spillovers p dis cells) :
    exposure (exposureRows p dis (privateCells p cells)) pr.1 ≤ 50 ∧
    pr.2 = p.base_height * Real.exp (p.beta0 + p.beta1 *
        exposure (exposureRows p dis (privateCells p cells)) pr.1) := by
  obtain ⟨a, ha, hid, hpr_eq⟩ := mem_propagate hpr
  have hah := (academicCells_height ha).1
  subst hpr_eq
  exact ⟨exposure_le_fifty _ _, by rw [hah]⟩

/-- Witness for C5 at the one-sender-one-receiver grid. -/
theorem C5_witness :
    exposure (exposureRows defaultParams (make_dis_df exCells)
      (privateCells defaultParams exCells)) 1 ≤ 50 ∧
    exVal = defaultParams.base_height * Real.exp (defaultParams.beta0 +
      defaultParams.beta1 * exposure (exposureRows defaultParams
        (make_dis_df exCells) (privateCells defaultParams exCells)) 1) :=
  C5_exposure_clamped defaultParams (make_dis_df exCells) exCells (1, exVal)
    (by rw [propagate_exCells]; exact List.mem_singleton.mpr rfl)

/-- C6: the distance structure contains, for any two cells with coordinates
and distinct ids, both ordered pairs with symmetric distances; it contains no
self-pair; and with fewer than 2 cells it is empty. -/
theorem C6_distance_structure (cells : List Cell) :
    (∀ a ∈ cells, ∀ b ∈ cells, ∀ pa pb : ℝ × ℝ,
      a.geometry = some pa → b.geometry = some pb → a.id ≠ b.id →
        (⟨a.id, b.id, eucDist pa pb⟩ : DisRec) ∈ make_dis_df cells ∧
        (⟨b.id, a.id, eucDist pb pa⟩ : DisRec) ∈ make_dis_df cells ∧
        eucDist pa pb = eucDist pb pa) ∧
    (∀ r ∈ make_dis_df cells, r.id_x ≠ r.id_y) ∧
    (cells.length < 2 → make_dis_df cells = []) := by
  refine ⟨?_, make_dis_df_no_self, make_dis_df_small⟩
  intro a ha b hb pa pb hpa hpb hab
  exact ⟨mem_make_dis_df (mem_centroids ha hpa) (mem_centroids hb hpb) hab,
    mem_make_dis_df (mem_centroids hb hpb) (mem_centroids ha hpa) (Ne.symm hab),
    eucDist_symm pa pb⟩

/-- Witness for C6 on the two-cell example grid and a one-cell grid. -/
theorem C6_witness :
    (⟨1, 2, eucDist (0, 0) (3, 4)⟩ : DisRec) ∈ make_dis_df exCells ∧
    (⟨2, 1, eucDist (3, 4) (0, 0)⟩ : DisRec) ∈ make_dis_df exCells ∧
    eucDist (0, 0) (3, 4) = eucDist (3, 4) (0, 0) ∧
    make_dis_df [cA] = [] := by
  have h := C6_distance_structure exCells
  have h1 := C6_distance_structure [cA]
  obtain ⟨hrec1, hrec2, hsym⟩ := h.1 cA (by simp [exCells]) cP (by simp [exCells])
    (0, 0) (3, 4) rfl rfl (by decide)
  exact ⟨hrec1, hrec2, hsym, h1.2.2 (by simp)⟩

/-- C7: every rendered cell whose id is in the engine's output mapping gets a
height between `base_height` and the output ceiling 1000 (the engine value is
capped at 1000 and scaled; the exposure clamp keeps the analytic value far
below the cap, so the scaled result stays under 1000 and above the base). -/
theorem C7_rendered_height_bounds (cm : String) (jfn : List ℝ → ℕ → List ℝ)
    (ac : List ℤ) (dis0 : Option (List DisRec)) (cells out : List Cell)
    (c : Cell)
    (hout : (return_indicator defaultParams cm jfn ac dis0 cells).2 = some out)
    (hc : c ∈ out)
    (hid : c.id ∈ (propagate_spillovers defaultParams (cachedDis dis0 cells)
      cells).map Prod.fst) :
    defaultParams.base_height ≤ c.height ∧ c.height ≤ 1000 := by
  simp only [return_indicator] at hout
  obtain ⟨c0, hc0, hfc0⟩ := processCells_mem hout c hc
  rw [processCell, Option.map_eq_some'] at hfc0
  obtain ⟨c1, hH, hfin⟩ := hfc0
  obtain ⟨hid1, _, _, _⟩ := processCellHeight_fields hH
  have hfinf := processCellFinish_fields defaultParams c1
  rw [hfin] at hfinf
  obtain ⟨hcid, _, _, hch, _⟩ := hfinf
  have hc0id : c0.id ∈ (propagate_spillovers defaultParams
      (cachedDis dis0 cells) cells).map Prod.fst := by
    rw [← hid1, ← hcid]
    exact hid
  obtain ⟨hv, hget, hheight⟩ := processCellHeight_of_mem hH hc0id
  have hvmem := dictGet_mem hget
  obtain ⟨a, ha, _, heq⟩ := mem_propagate hvmem
  have hv_eq : hv = a.height * Real.exp (defaultParams.beta0 +
      defaultParams.beta1 * exposure (exposureRows defaultParams
        (cachedDis dis0 cells) (privateCells defaultParams cells)) a.id) :=
    congrArg Prod.snd heq
  have hah := (academicCells_height ha).1
  set e := exposure (exposureRows defaultParams (cachedDis dis0 cells)
    (privateCells defaultParams cells)) a.id with he_def
  have he0 : 0 ≤ e :=
    exposure_nonneg (exposureRows_nonneg (by norm_num [defaultParams]))
  have he50 : e ≤ 50 := exposure_le_fifty _ _
  have hb0 : defaultParams.beta0 = 0 := rfl
  have hb1 : defaultParams.beta1 = 0.06 := rfl
  have hbh : defaultParams.base_height = 8 := rfl
  have hsc : defaultParams.scale = 2 := rfl
  rw [hah, hb0, hb1, hbh] at hv_eq
  have hexp_lo : (1:ℝ) ≤ Real.exp (0 + 0.06 * e) := by
    rw [show (1:ℝ) = Real.exp 0 from (Real.exp_zero).symm]
    apply Real.exp_le_exp.mpr
    nlinarith
  have hexp_hi : Real.exp (0 + 0.06 * e) ≤ Real.exp 3 := by
    apply Real.exp_le_exp.mpr
    nlinarith
  have hv_lo : (8:ℝ) ≤ hv := by
    rw [hv_eq]
    nlinarith
  have hv_hi : hv < 500 := by
    rw [hv_eq]
    nlinarith [exp_three_lt, Real.exp_pos (0 + 0.06 * e)]
  rw [hch, hheight, hsc, hbh]
  constructor
  · have hm : (8:ℝ) ≤ min 1000 hv := le_min (by norm_num) hv_lo
    linarith
  · have hm : min (1000:ℝ) hv ≤ hv := min_le_right _ _
    linarith

/-- Witness for C7: the rendered receiver of the example grid. -/
theorem C7_witness :
    defaultParams.base_height ≤ cAout.height ∧ cAout.height ≤ 1000 :=
  C7_rendered_height_bounds "none" jenksUnused [0,0,0] none exCells
    [cAout, cPout] cAout ret_exCells (by simp)
    (by rw [show cachedDis none exCells = make_dis_df exCells from rfl,
          propagate_exCells]
        simp [cAout])

/-- C8: with the quantile method and a non-empty value collection,
`set_breaks` returns the `n_bins + 1` quantiles at the evenly spaced
fractions `0, 1/n, …, 1`; on `[1..9]` with 3 bins the breaks are the
0th/33rd/67th/100th percentiles `[1, 11/3, 19/3, 9]`, and the value 5 gets
bin index 1, the middle of the three bins. -/
theorem C8_quantile_breaks :
    (∀ (jfn : List ℚ → ℕ → List ℚ) (n : ℕ) (values : List ℚ), values ≠ [] →
      set_breaks jfn "quantile" n values =
        some ((List.range (n+1)).map
          (fun i : ℕ => quantile values ((i:ℚ)/(n:ℚ))))) ∧
    (∀ jfn : List ℚ → ℕ → List ℚ,
      set_breaks jfn "quantile" 3 [1,2,3,4,5,6,7,8,9] =
        some [1, 11/3, 19/3, 9]) ∧
    bin_of [(1:ℚ), 11/3, 19/3, 9] 5 = some 1 :=
  ⟨quantile_breaks_general, breaks9, by norm_num [bin_of, List.findIdx?_cons]⟩

/-- Witness for C8 at the concrete collection `[1..9]`. -/
theorem C8_witness :
    set_breaks jenksUnusedQ "quantile" 3 [1,2,3,4,5,6,7,8,9] =
      some ((List.range 4).map
        (fun i : ℕ => quantile [1,2,3,4,5,6,7,8,9] ((i:ℚ)/(3:ℚ)))) ∧
    set_breaks jenksUnusedQ "quantile" 3 [1,2,3,4,5,6,7,8,9] =
      some [1, 11/3, 19/3, 9] ∧
    bin_of [(1:ℚ), 11/3, 19/3, 9] 5 = some 1 := by
  have h := C8_quantile_breaks
  exact ⟨h.1 jenksUnusedQ 3 _ (by decide), h.2.1 jenksUnusedQ, h.2.2⟩

/-- C9 as stated is false on the code: the distance cache is *never*
invalidated, so a second call whose cell geometry changed still reuses the
structure built from the first call's geometry, although the two structures
differ. -/
theorem C9_counterexample :
    disStateAfter defaultParams "none" jenksUnused [0,0,0] [grid1, grid2] =
      some (make_dis_df grid1) ∧
    make_dis_df grid1 ≠ make_dis_df grid2 :=
  ⟨rfl, grids_differ⟩

/-- C9 amended: the distance structure is computed on the first
`return_indicator` call and reused unchanged by every later call; it is never
rebuilt, even when cell geometry changes between calls. -/
theorem C9_amended_cache_never_rebuilt (p : Params) (cm : String)
    (jfn : List ℝ → ℕ → List ℝ) (ac : List ℤ) (first : List Cell)
    (rest : List (List Cell)) :
    disStateAfter p cm jfn ac (first :: rest) = some (make_dis_df first) := by
  rw [disStateAfter, List.foldl_cons]
  have hstep : ∀ (st : List DisRec) (calls : List (List Cell)),
      calls.foldl
        (fun st cells => (return_indicator p cm jfn ac st cells).1)
        (some st) = some st := by
    intro st calls
    induction calls with
    | nil => rfl
    | cons c cs ih => rw [List.foldl_cons]; exact ih
  exact hstep (make_dis_df first) rest

/-- C10: in the list returned by `return_indicator`, every cell has its
geometry entry removed, and its id, name and remaining attributes are exactly
those of the corresponding input cell — only height and color are modified. -/
theorem C10_frame_effect (p : Params) (cm : String)
    (jfn : List ℝ → ℕ → List ℝ) (ac : List ℤ) (dis0 : Option (List DisRec))
    (cells out : List Cell)
    (hout : (return_indicator p cm jfn ac dis0 cells).2 = some out) :
    List.Forall₂ (fun c0 c => c.geometry = none ∧ c.id = c0.id ∧
      c.name = c0.name ∧ c.extra = c0.extra) cells out := by
  simp only [return_indicator] at hout
  have hall := processCells_forall₂ hout
  refine hall.imp ?_
  intro c0 c hfc
  rw [processCell, Option.map_eq_some'] at hfc
  obtain ⟨c1, hH, hfin⟩ := hfc
  obtain ⟨hid1, hname1, hextra1, _⟩ := processCellHeight_fields hH
  have hfinf := processCellFinish_fields p c1
  rw [hfin] at hfinf
  obtain ⟨f1, f2, f3, _, f5⟩ := hfinf
  exact ⟨f5, f1.trans hid1, f2.trans hname1, f3.trans hextra1⟩

/-- Witness for C10: the rendered example grid. -/
theorem C10_witness :
    List.Forall₂ (fun c0 c => c.geometry = none ∧ c.id = c0.id ∧
      c.name = c0.name ∧ c.extra = c0.extra) exCells [cAout, cPout] :=
  C10_frame_effect defaultParams "none" jenksUnused [0,0,0] none exCells
    [cAout, cPout] ret_exCells

end Minerva
